import Mathlib

/-!
Verification of the transcript-to-structured-data pipeline of the
claude-usage VS Code extension (`src/usageReader.ts`), shallowly embedded
over `List Char`.  JavaScript regex matching is embedded as executable
leftmost-match scanners with ordered-alternation / greedy-with-backtracking
semantics where the pattern requires it; machine numbers are `Nat`/`Int`
(all the arithmetic in the source is exact integer arithmetic on epoch
milliseconds and minute-resolution civil times), and decimal amounts are
`ℚ` (parseFloat on the digit strings involved is exact).
-/

namespace UsageReader

/-- ESC byte (0x1B), the lead byte of every ANSI escape sequence. -/
def ESC : Char := '\x1B'

/-- Characters removed by the final cleanup pass of `stripAnsi`:
the JS class `[\x00-\x08\x0B\x0C\x0E-\x1F]` (control bytes other than
tab 0x09, newline 0x0A and carriage return 0x0D). -/
def isStripCtl (c : Char) : Bool :=
  (c.toNat ≤ 0x08) || c.toNat == 0x0B || c.toNat == 0x0C ||
  (0x0E ≤ c.toNat && c.toNat ≤ 0x1F)

/-- Numeric value of a digit string, as `parseInt(ds, 10)` on an all-digit
string. -/
def digitsVal (ds : List Char) : Nat :=
  ds.foldl (fun a c => 10 * a + (c.toNat - 48)) 0

def cursorArg (rest : List Char) : Option (Nat × List Char) :=
  match rest with
  | d :: r2 =>
    if d = '[' then
      match r2.dropWhile Char.isDigit with
      | b :: r4 =>
        if b = 'C' then
          let ds := r2.takeWhile Char.isDigit
          some (min (if ds.isEmpty then 1 else digitsVal ds) 100, r4)
        else none
      | [] => none
    else none
  | [] => none

/-- Loop body of the global `CURSOR_FWD_RE` replacement.  The first
argument is a step budget, always called with at least the input length
(a successful match consumes the whole escape sequence, an unsuccessful
position advances by one character, so the input length bounds the
number of steps); it exists only to make the recursion structural. -/
def cursorFwdGo : Nat → List Char → List Char
  | 0, l => l
  | _ + 1, [] => []
  | n + 1, c :: rest =>
    if c = ESC then
      match cursorArg rest with
      | some (cnt, r4) => List.replicate cnt ' ' ++ cursorFwdGo n r4
      | none => c :: cursorFwdGo n rest
    else c :: cursorFwdGo n rest

/-- Global replacement of `CURSOR_FWD_RE` (ESC bracket digits C) by the
matched count of spaces, scanning left to right as `String.replace` with
a global regex does. -/
def cursorFwdReplace (l : List Char) : List Char := cursorFwdGo l.length l

/-- First character class of `ANSI_RE`'s alternation: `[@-Z\\-_]`,
i.e. 0x40–0x5A together with 0x5C–0x5F (note `]` 0x5D is inside it). -/
def inClassA (c : Char) : Bool :=
  (0x40 ≤ c.toNat && c.toNat ≤ 0x5A) || (0x5C ≤ c.toNat && c.toNat ≤ 0x5F)

/-- CSI parameter bytes, the class 0x30 to 0x3F. -/
def inParamByte (c : Char) : Bool := 0x30 ≤ c.toNat && c.toNat ≤ 0x3F

/-- CSI intermediate bytes, the class 0x20 to 0x2F. -/
def inInterByte (c : Char) : Bool := 0x20 ≤ c.toNat && c.toNat ≤ 0x2F

/-- CSI final bytes, the class 0x40 to 0x7E. -/
def inFinalByte (c : Char) : Bool := 0x40 ≤ c.toNat && c.toNat ≤ 0x7E

/-- OSC body bytes: anything but BEL 0x07 and ESC 0x1B. -/
def isOscBody (c : Char) : Bool := !(c == '\x07' || c == ESC)

/-- Match the body of `ANSI_RE` after the initial ESC: the ordered
alternation of the first character class, the CSI form (an opening
bracket, parameter bytes, intermediate bytes, one final byte) and the
OSC form (a closing bracket, body bytes, terminated by BEL or ESC
backslash), alternatives tried in order as in JS.  Returns the input
remaining after the match.  The OSC alternative is kept for fidelity
although a closing bracket already belongs to the first character class,
so (as in the JS engine's ordered alternation) it can never be reached. -/
def ansiTail (rest : List Char) : Option (List Char) :=
  match rest with
  | [] => none
  | d :: r2 =>
    if inClassA d then some r2
    else if d = '[' then
      match (r2.dropWhile inParamByte).dropWhile inInterByte with
      | f :: r5 => if inFinalByte f then some r5 else none
      | [] => none
    else if d = ']' then
      match r2.dropWhile isOscBody with
      | b :: r4 =>
        if b = '\x07' then some r4
        else
          match r4 with
          | s :: r5 => if b = ESC && s = '\\' then some r5 else none
          | [] => none
      | [] => none
    else none

/-- Loop body of the global `ANSI_RE` replacement: at each ESC try to
match the escape-sequence body and drop it; a failed match keeps the
character and advances one position.  The step budget is always called
with at least the input length (each step strictly shrinks the input)
and exists only to make the recursion structural. -/
def ansiGo : Nat → List Char → List Char
  | 0, l => l
  | _ + 1, [] => []
  | n + 1, c :: rest =>
    if c = ESC then
      match ansiTail rest with
      | some r' => ansiGo n r'
      | none => c :: ansiGo n rest
    else c :: ansiGo n rest

/-- Global replacement of `ANSI_RE` by the empty string, scanning left
to right. -/
def ansiReplace (l : List Char) : List Char := ansiGo l.length l

/-- `s.replace(/\r/g, "\n")`, character by character. -/
def crToNl (c : Char) : Char := if c = '\x0D' then '\x0A' else c

/-- `stripAnsi` from the source: expand cursor-forward sequences to spaces,
strip remaining ANSI sequences, turn `\r` into `\n`, drop stray control
bytes. -/
def stripAnsiL (raw : List Char) : List Char :=
  ((ansiReplace (cursorFwdReplace raw)).map crToNl).filter (fun c => !(isStripCtl c))

def stripAnsi (raw : String) : String := ⟨stripAnsiL raw.data⟩

-- ── Character classes of the embedded regexes (ASCII model of JS `\s`,
-- `\d`, `\w`, `\S`; the transcripts concerned are ASCII) ──────────────

def isSpaceC (c : Char) : Bool :=
  c == ' ' || c == '\t' || c == '\x0A' || c == '\x0D' || c == '\x0B' || c == '\x0C'

def isDigitC (c : Char) : Bool := c.isDigit

def isWordC (c : Char) : Bool := c.isAlpha || c.isDigit || c == '_'

def isNonSpaceC (c : Char) : Bool := !(isSpaceC c)

/-- JS `.` (no dotall flag): any character but a line terminator. -/
def isDotC (c : Char) : Bool := !(c == '\x0A' || c == '\x0D')

-- ── A small backtracking matcher algebra in continuation style.
-- A `Matcher` takes the input and a continuation receiving the rest
-- after the piece it matched; alternatives and greedy repetition try
-- their candidates in the same order a JS regex engine does. ──────────

def Matcher : Type := List Char → (List Char → Bool) → Bool

def mEmpty : Matcher := fun s k => k s

/-- One case-insensitive literal character (pattern given in lowercase). -/
def mCharCI (c : Char) : Matcher := fun s k =>
  match s with
  | x :: r => x.toLower == c && k r
  | [] => false

def mClass (p : Char → Bool) : Matcher := fun s k =>
  match s with
  | x :: r => p x && k r
  | [] => false

def mSeq (a b : Matcher) : Matcher := fun s k => a s fun s1 => b s1 k

def mAlt (a b : Matcher) : Matcher := fun s k => a s k || b s k

def mOpt (a : Matcher) : Matcher := fun s k => a s k || k s

/-- Greedy star over a character class, with backtracking (longest
consumed run first, as in JS). -/
def mStar (p : Char → Bool) : Matcher := fun s k => mStarGo p s k
where
  mStarGo (p : Char → Bool) : List Char → (List Char → Bool) → Bool
    | c :: r, k => if p c then mStarGo p r k || k (c :: r) else k (c :: r)
    | [], k => k []

def mPlus (p : Char → Bool) : Matcher := mSeq (mClass p) (mStar p)

/-- Case-insensitive literal string (pattern given in lowercase). -/
def mStrCI (cs : String) : Matcher :=
  cs.data.foldr (fun c acc => mSeq (mCharCI c) acc) mEmpty

/-- `regex.test(s)`: try the matcher at every start position. -/
def mTest (m : Matcher) : List Char → Bool
  | [] => m [] (fun _ => true)
  | s@(_ :: r) => m s (fun _ => true) || mTest m r

def spacePlus : Matcher := mPlus isSpaceC
def spaceStar : Matcher := mStar isSpaceC

-- ── Quota section labels (`QUOTA_LABELS`) ─────────────────────────────

inductive QuotaType where
  | session
  | weekly
  | opus
  | sonnet
deriving DecidableEq, Repr

/-- `/current\s+session/i` -/
def labelSession : Matcher := mSeq (mStrCI "current") (mSeq spacePlus (mStrCI "session"))

/-- `/current\s+week\s*\(all\s+models?\)/i` -/
def labelWeekly : Matcher :=
  mSeq (mStrCI "current") (mSeq spacePlus (mSeq (mStrCI "week") (mSeq spaceStar
    (mSeq (mCharCI '(') (mSeq (mStrCI "all") (mSeq spacePlus
      (mSeq (mStrCI "model") (mSeq (mOpt (mCharCI 's')) (mCharCI ')')))))))))

/-- `/current\s+week\s*\(opus(?:\s+only)?\)/i` -/
def labelOpusWeek : Matcher :=
  mSeq (mStrCI "current") (mSeq spacePlus (mSeq (mStrCI "week") (mSeq spaceStar
    (mSeq (mCharCI '(') (mSeq (mStrCI "opus")
      (mSeq (mOpt (mSeq spacePlus (mStrCI "only"))) (mCharCI ')')))))))

/-- `/current\s+week\s*\(sonnet(?:\s+only)?\)/i` -/
def labelSonnetWeek : Matcher :=
  mSeq (mStrCI "current") (mSeq spacePlus (mSeq (mStrCI "week") (mSeq spaceStar
    (mSeq (mCharCI '(') (mSeq (mStrCI "sonnet")
      (mSeq (mOpt (mSeq spacePlus (mStrCI "only"))) (mCharCI ')')))))))

/-- `/opus\s+usage/i` -/
def labelOpusUsage : Matcher := mSeq (mStrCI "opus") (mSeq spacePlus (mStrCI "usage"))

/-- `/sonnet\s+usage/i` -/
def labelSonnetUsage : Matcher := mSeq (mStrCI "sonnet") (mSeq spacePlus (mStrCI "usage"))

/-- `QUOTA_LABELS.find(...)`: first label pattern matching the line. -/
def quotaLabelFind (line : List Char) : Option QuotaType :=
  if mTest labelSession line then some .session
  else if mTest labelWeekly line then some .weekly
  else if mTest labelOpusWeek line then some .opus
  else if mTest labelSonnetWeek line then some .sonnet
  else if mTest labelOpusUsage line then some .opus
  else if mTest labelSonnetUsage line then some .sonnet
  else none

/-- `COST_SECTION_RE = /extra\s+usage/i` -/
def costSectionTest (line : List Char) : Bool :=
  mTest (mSeq (mStrCI "extra") (mSeq spacePlus (mStrCI "usage"))) line

/-- The reset-line keyword test of `parseResetTime`'s first pass (a regex
tolerating spaces injected inside the word Resets, or the word renew). -/
def resetKwTest (line : List Char) : Bool :=
  mTest (mAlt
    (mSeq (mStrCI "rese") (mSeq spaceStar (mSeq (mOpt (mCharCI 't'))
      (mSeq spaceStar (mCharCI 's')))))
    (mStrCI "renew")) line

/-- One or two digits, greedy (two first), as a matcher. -/
def mDigits12 : Matcher :=
  mAlt (mSeq (mClass isDigitC) (mClass isDigitC)) (mClass isDigitC)

/-- The second-pass filter of `parseResetTime`: one or two digits,
optional spaces, then am or pm, case-insensitive. -/
def hasAmPmTest (line : List Char) : Bool :=
  mTest (mSeq mDigits12 (mSeq spaceStar (mAlt (mStrCI "am") (mStrCI "pm")))) line

-- ── Auth failure patterns (`AUTH_PATTERNS`, in table order) ───────────

structure AuthError where
  Code : String
  Message : String
deriving DecidableEq, Repr

/-- The message table of `AUTH_PATTERNS`, embedded verbatim. -/
def authSetupMsg : String :=
  "Claude CLI setup required. Run 'claude' in a terminal to complete first-time setup."
def authExpiredMsg : String :=
  "Claude authentication token expired. Run 'claude' to re-authenticate."
def authLoginMsg : String :=
  "Not logged in to Claude. Run 'claude' to authenticate."
def authNoSubMsg : String :=
  "No active Claude subscription found."

def authPat1 : Matcher :=
  mSeq (mStrCI "let") (mSeq (mOpt (mClass isDotC)) (mSeq (mCharCI 's')
    (mSeq spacePlus (mSeq (mStrCI "get") (mSeq spacePlus (mStrCI "started"))))))

def authPat2 : Matcher :=
  mSeq (mAlt (mStrCI "token") (mStrCI "session"))
    (mSeq spaceStar (mSeq (mOpt (mSeq (mStrCI "has") spacePlus)) (mStrCI "expired")))

def authPat3 : Matcher :=
  mSeq (mAlt (mSeq (mStrCI "sign") (mSeq spaceStar (mStrCI "in")))
        (mAlt (mSeq (mStrCI "log") (mSeq spaceStar (mStrCI "in"))) (mStrCI "authenticate")))
    (mSeq spaceStar
      (mAlt (mSeq (mStrCI "to") (mSeq spacePlus (mStrCI "continue")))
        (mAlt (mStrCI "required") (mSeq (mStrCI "to") (mSeq spacePlus (mStrCI "use"))))))

def authPat4 : Matcher :=
  mSeq (mStrCI "no") (mSeq spacePlus
    (mSeq (mOpt (mSeq (mStrCI "active") spacePlus)) (mStrCI "subscription")))

def authPat5 : Matcher := mStrCI "claude.ai/login"

def joinNL (lines : List (List Char)) : List Char :=
  List.intercalate ['\x0A'] lines

/-- `detectAuthError`: the lines joined by newlines, tested against the
ordered pattern table; first match wins. -/
def detectAuthError (lines : List (List Char)) : Option AuthError :=
  let text := joinNL lines
  if mTest authPat1 text then some ⟨"setup_required", authSetupMsg⟩
  else if mTest authPat2 text then some ⟨"token_expired", authExpiredMsg⟩
  else if mTest authPat3 text then some ⟨"not_logged_in", authLoginMsg⟩
  else if mTest authPat4 text then some ⟨"no_subscription", authNoSubMsg⟩
  else if mTest authPat5 text then some ⟨"not_logged_in", authLoginMsg⟩
  else none

def AUTH_ERROR_CODES : List String :=
  ["setup_required", "not_logged_in", "token_expired", "no_subscription"]

-- ── PERCENT_RE with captures ──────────────────────────────────────────

/-- Case-insensitive literal-prefix test (pattern in lowercase). -/
def lcPrefix (pat : String) (s : List Char) : Bool :=
  go pat.data s
where
  go : List Char → List Char → Bool
    | [], _ => true
    | _ :: _, [] => false
    | p :: ps, c :: cs => p == c.toLower && go ps cs

/-- After the digit group of `PERCENT_RE`: optional spaces, a percent
sign, optional spaces, then used or left; returns `isUsed`. -/
def percentTail (rest : List Char) : Option Bool :=
  match rest.dropWhile isSpaceC with
  | c :: r2 =>
    if c = '%' then
      let r3 := r2.dropWhile isSpaceC
      if lcPrefix "used" r3 then some true
      else if lcPrefix "left" r3 then some false
      else none
    else none
  | [] => none

/-- `PERCENT_RE` anchored at the current position with an exactly-n-digit
group (the greedy 1-to-3-digit group tries n = 3, 2, 1 in that order). -/
def percentAtLen (n : Nat) (s : List Char) : Option (Nat × Bool) :=
  let ds := s.take n
  if ds.length == n && ds.all isDigitC then
    (percentTail (s.drop n)).map fun isUsed => (digitsVal ds, isUsed)
  else none

def percentAt (s : List Char) : Option (Nat × Bool) :=
  ((percentAtLen 3 s).orElse fun _ => percentAtLen 2 s).orElse fun _ => percentAtLen 1 s

/-- Leftmost match of `PERCENT_RE = /(\d{1,3})\s*%\s*(used|left)/i`,
returning the numeric value and whether the phrase said used. -/
def percentFind : List Char → Option (Nat × Bool)
  | [] => none
  | s@(_ :: r) => (percentAt s).orElse fun _ => percentFind r

def percentTest (line : List Char) : Bool := (percentFind line).isSome

-- ── Relative-duration tokens ──────────────────────────────────────────

/-- Leftmost match of a relative-duration token: one or more digits,
optional spaces, then the unit letter (`RELATIVE_DAYS`, `RELATIVE_HOURS`,
`RELATIVE_MINS` with units d, h, m; their optional spelled-out suffixes
cannot change the captured number).  The greedy digit group needs no
backtracking here: a shorter digit prefix is followed by a digit, which
is neither whitespace nor a unit letter. -/
def relUnitFind (u : Char) : List Char → Option Nat
  | [] => none
  | s@(c :: r) =>
    if isDigitC c then
      let rest := (s.dropWhile isDigitC).dropWhile isSpaceC
      match rest with
      | x :: _ =>
        if x.toLower == u then some (digitsVal (s.takeWhile isDigitC))
        else relUnitFind u r
      | [] => relUnitFind u r
    else relUnitFind u r

def relDaysFind (l : List Char) : Option Nat := relUnitFind 'd' l
def relHoursFind (l : List Char) : Option Nat := relUnitFind 'h' l
def relMinsFind (l : List Char) : Option Nat := relUnitFind 'm' l

-- ── TZ_RE: a parenthesized IANA zone name ─────────────────────────────

def tzClass (c : Char) : Bool := c.isAlpha || c == '_' || c == '/'

/-- Leftmost match of `TZ_RE`: an opening parenthesis, one or more
letters, underscores or slashes (captured), a closing parenthesis. -/
def tzFind : List Char → Option (List Char)
  | [] => none
  | c :: r =>
    if c = '(' then
      match r.dropWhile tzClass with
      | d :: _ =>
        if d = ')' && !(r.takeWhile tzClass).isEmpty then some (r.takeWhile tzClass)
        else tzFind r
      | [] => tzFind r
    else tzFind r

-- ── TIME_ONLY_RE and DATE_TIME_RE with captures ───────────────────────

/-- Optional spaces then am or pm (case-insensitive); some true = pm. -/
def ampmTail (rest : List Char) : Option Bool :=
  match rest.dropWhile isSpaceC with
  | a :: m :: _ =>
    if m.toLower == 'm' then
      if a.toLower == 'a' then some false
      else if a.toLower == 'p' then some true
      else none
    else none
  | _ => none

/-- `TIME_ONLY_RE` anchored here with an exactly-n-digit hour group;
the optional colon-minutes group is tried greedily first. -/
def timeOnlyAtLen (n : Nat) (s : List Char) : Option (Nat × Nat × Bool) :=
  let ds := s.take n
  if ds.length == n && ds.all isDigitC then
    let hour := digitsVal ds
    let rest := s.drop n
    (match rest with
     | ':' :: m1 :: m2 :: r2 =>
       if isDigitC m1 && isDigitC m2 then
         (ampmTail r2).map fun pm => (hour, digitsVal [m1, m2], pm)
       else none
     | _ => none).orElse fun _ =>
      (ampmTail rest).map fun pm => (hour, 0, pm)
  else none

/-- `TIME_ONLY_RE = /(\d{1,2})(?::(\d{2}))?\s*(am|pm)/i` anchored at the
current position (hour group greedy: two digits tried before one). -/
def timeOnlyAt (s : List Char) : Option (Nat × Nat × Bool) :=
  (timeOnlyAtLen 2 s).orElse fun _ => timeOnlyAtLen 1 s

/-- Leftmost match of `TIME_ONLY_RE`; captures (hour, minute, isPm). -/
def timeOnlyFind : List Char → Option (Nat × Nat × Bool)
  | [] => none
  | s@(_ :: r) => (timeOnlyAt s).orElse fun _ => timeOnlyFind r

structure DTMatch where
  monthStr : List Char
  day : Nat
  year : Option Nat
  hour : Nat
  minute : Nat
  pm : Bool
deriving DecidableEq, Repr

/-- One-or-more whitespace, greedy (the following groups never start
with whitespace, so no backtracking arises). -/
def requireSpacePlus (s : List Char) : Option (List Char) :=
  match s with
  | c :: _ => if isSpaceC c then some (s.dropWhile isSpaceC) else none
  | [] => none

/-- The optional `at` prefix and the hour-minute-ampm tail of
`DATE_TIME_RE` (the prefixed branch tried first, as JS does). -/
def dtTimePart (rest : List Char) : Option (Nat × Nat × Bool) :=
  (match rest with
   | a :: t :: r2 =>
     if a.toLower == 'a' && t.toLower == 't' then
       match requireSpacePlus r2 with
       | some r3 => timeOnlyAt r3
       | none => none
     else none
   | _ => none).orElse fun _ => timeOnlyAt rest

/-- The optional year group of `DATE_TIME_RE`: an optional comma,
whitespace, four digits. -/
def dtYearAt (rest : List Char) : Option (Nat × List Char) :=
  let core := fun (r : List Char) =>
    match requireSpacePlus r with
    | some r2 =>
      let ds := r2.take 4
      if ds.length == 4 && ds.all isDigitC then some (digitsVal ds, r2.drop 4)
      else none
    | none => none
  match rest with
  | ',' :: r => (core r).orElse fun _ => core rest
  | _ => core rest

/-- Day group of `DATE_TIME_RE` with exactly n digits, then the optional
year group (greedily first), whitespace and the time part. -/
def dtDay (mon : List Char) (r1 : List Char) (n : Nat) : Option DTMatch :=
  let ds := r1.take n
  if ds.length == n && ds.all isDigitC then
    let day := digitsVal ds
    let r2 := r1.drop n
    (match dtYearAt r2 with
     | some (yr, r3) =>
       match requireSpacePlus r3 with
       | some r4 =>
         match dtTimePart r4 with
         | some (h, mi, pm) => some (⟨mon, day, some yr, h, mi, pm⟩ : DTMatch)
         | none => none
       | none => none
     | none => none).orElse fun _ =>
      match requireSpacePlus r2 with
      | some r4 =>
        match dtTimePart r4 with
        | some (h, mi, pm) => some ⟨mon, day, none, h, mi, pm⟩
        | none => none
      | none => none
  else none

/-- `DATE_TIME_RE` anchored here with an exactly-n-character month word. -/
def dtAtLen (s : List Char) (n : Nat) : Option DTMatch :=
  let mon := s.take n
  if mon.length == n && mon.all isWordC then
    match requireSpacePlus (s.drop n) with
    | some r1 => (dtDay mon r1 2).orElse fun _ => dtDay mon r1 1
    | none => none
  else none

/-- Try month-word lengths n, n-1, ..., 3 (the greedy 3-to-9 repetition
tries the longest first). -/
def dtAtLens (s : List Char) : Nat → Option DTMatch
  | 0 => none
  | n + 1 =>
    if n + 1 < 3 then none
    else (dtAtLen s (n + 1)).orElse fun _ => dtAtLens s n

/-- `DATE_TIME_RE` anchored at the current position. -/
def dtAt (s : List Char) : Option DTMatch :=
  dtAtLens s (min (s.takeWhile isWordC).length 9)

/-- Leftmost match of `DATE_TIME_RE`. -/
def dtFind : List Char → Option DTMatch
  | [] => none
  | s@(_ :: r) => (dtAt s).orElse fun _ => dtFind r

-- ── Line splitting and account metadata ───────────────────────────────

/-- JS `split(/\r?\n/)`. -/
def splitCRLF : List Char → List (List Char)
  | [] => [[]]
  | '\x0D' :: '\x0A' :: r => [] :: splitCRLF r
  | '\x0A' :: r => [] :: splitCRLF r
  | c :: r =>
    match splitCRLF r with
    | l :: ls => (c :: l) :: ls
    | [] => [[c]]

/-- One plan-name pattern of `parseAccountType`: an optional separator
glyph and spaces, the word claude, whitespace, the plan word. -/
def accountMatcher (plan : String) : Matcher :=
  mSeq (mOpt (mSeq (mCharCI '·') spaceStar))
    (mSeq (mStrCI "claude") (mSeq spacePlus (mStrCI plan)))

def accountOf (l : List Char) : Option String :=
  if mTest (accountMatcher "max") l then some "Claude Max"
  else if mTest (accountMatcher "pro") l then some "Claude Pro"
  else if mTest (accountMatcher "team") l then some "Claude Team"
  else if mTest (accountMatcher "enterprise") l then some "Claude Enterprise"
  else if mTest (accountMatcher "api") l then some "Claude API"
  else if mTest (accountMatcher "free") l then some "Claude Free"
  else none

def parseAccountType : List (List Char) → String
  | [] => "unknown"
  | l :: r =>
    match accountOf l with
    | some s => s
    | none => parseAccountType r

/-- `\S+@\S+` anchored: the maximal nonspace run, valid when it has an
at-sign at an interior position; both greedy runs make the capture the
whole run. -/
def emailRun (s : List Char) : Option (List Char) :=
  let run := s.takeWhile isNonSpaceC
  match run with
  | [] => none
  | _ :: mid => if mid.dropLast.contains '@' then some run else none

/-- First email regex of `parseEmail` anchored at the current position:
a separator glyph, spaces, claude, whitespace, pro or max, spaces,
a separator glyph, spaces, then the email run. -/
def email1At (s : List Char) : Option (List Char) :=
  match s with
  | c :: r =>
    if c = '·' then
      let r1 := r.dropWhile isSpaceC
      if lcPrefix "claude" r1 then
        match requireSpacePlus (r1.drop 6) with
        | some r2 =>
          (if lcPrefix "pro" r2 then some (r2.drop 3)
           else if lcPrefix "max" r2 then some (r2.drop 3)
           else none).bind fun r3 =>
            match r3.dropWhile isSpaceC with
            | d :: r5 => if d = '·' then emailRun (r5.dropWhile isSpaceC) else none
            | [] => none
        | none => none
      else none
    else none
  | [] => none

/-- Second email regex of `parseEmail` anchored here: the word Email or
Account, a colon, spaces, then the email run. -/
def email2At (s : List Char) : Option (List Char) :=
  (if lcPrefix "email" s then some (s.drop 5)
   else if lcPrefix "account" s then some (s.drop 7)
   else none).bind fun r =>
    match r with
    | ':' :: r2 => emailRun (r2.dropWhile isSpaceC)
    | _ => none

def email1Find : List Char → Option (List Char)
  | [] => none
  | s@(_ :: r) => (email1At s).orElse fun _ => email1Find r

def email2Find : List Char → Option (List Char)
  | [] => none
  | s@(_ :: r) => (email2At s).orElse fun _ => email2Find r

def parseEmail : List (List Char) → String
  | [] => ""
  | l :: r =>
    match email1Find l with
    | some e => ⟨e⟩
    | none =>
      match email2Find l with
      | some e => ⟨e⟩
      | none => parseEmail r

-- ── Civil-time arithmetic (the naive, fixed-offset model of the JS
-- `Date(y, mo, d, h, min)` constructor; exact integer arithmetic on
-- minutes since the epoch, days via the standard civil-calendar
-- conversion) ─────────────────────────────────────────────────────────

/-- Calendar parts as JS reads them (`getFullYear`/`getMonth` 0-based/
`getDate`/`getHours`/`getMinutes`, or the fields of `getNowInTz`). -/
structure Civil where
  year : Int
  month : Int
  day : Int
  hour : Int
  minute : Int
deriving DecidableEq, Repr

/-- Days since 1970-01-01 of a civil date (month 1-based); a day value
outside the month's range extrapolates linearly, exactly like the JS
`Date` constructor's day-overflow normalization. -/
def daysFromCivil (y m d : Int) : Int :=
  let y1 := if m ≤ 2 then y - 1 else y
  let era := y1.fdiv 400
  let yoe := y1 - era * 400
  let doy := (153 * (if 2 < m then m - 3 else m + 9) + 2).fdiv 5 + d - 1
  let doe := yoe * 365 + yoe.fdiv 4 - yoe.fdiv 100 + doy
  era * 146097 + doe - 719468

/-- Civil date (year, month 1-based, day) of a days-since-epoch count. -/
def civilFromDays (z0 : Int) : Int × Int × Int :=
  let z := z0 + 719468
  let era := z.fdiv 146097
  let doe := z - era * 146097
  let yoe := (doe - doe.fdiv 1460 + doe.fdiv 36524 - doe.fdiv 146096).fdiv 365
  let y := yoe + era * 400
  let doy := doe - (365 * yoe + yoe.fdiv 4 - yoe.fdiv 100)
  let mp := (5 * doy + 2).fdiv 153
  let d := doy - (153 * mp + 2).fdiv 5 + 1
  let m := if mp < 10 then mp + 3 else mp - 9
  (if m ≤ 2 then y + 1 else y, m, d)

/-- JS `Date` maps constructor years 0 to 99 onto 1900 to 1999. -/
def jsYearAdjust (y : Int) : Int := if 0 ≤ y ∧ y ≤ 99 then 1900 + y else y

/-- Minutes-since-epoch of `new Date(y, mo, d, h, mi, 0)` read in its
own (naive) calendar frame: two-digit-year rule, month-index overflow
into years, day overflow into months, arbitrary hour and minute. -/
def dateCtorMin (y mo d h mi : Int) : Int :=
  let y1 := jsYearAdjust y
  let y2 := y1 + mo.fdiv 12
  let m1 := mo.emod 12 + 1
  1440 * daysFromCivil y2 m1 d + 60 * h + mi

/-- Civil parts of a minutes-since-epoch count. -/
def civilFromMinutes (totalMin : Int) : Civil :=
  let rem := totalMin.emod 1440
  match civilFromDays (totalMin.fdiv 1440) with
  | (y, m1, d) => ⟨y, m1 - 1, d, rem.fdiv 60, rem.emod 60⟩

/-- The reference clock of one parse: the epoch-milliseconds instant
`Date.now()`, the (fixed-offset model of the) system timezone as minutes
east of UTC, and the Intl-based civil reading of an instant in a named
IANA zone (`getNowInTz`), kept abstract. -/
structure Clock where
  now : Int
  sysOff : Int
  tzCivil : List Char → Int → Civil

/-- Civil parts of `new Date(now)` in the (fixed-offset) system zone,
as `getFullYear`/`getMonth`/`getDate`/`getHours`/`getMinutes` read them. -/
def localCivil (clk : Clock) : Civil :=
  civilFromMinutes ((clk.now + clk.sysOff * 60000).fdiv 60000)

/-- The result record of `computeDiffSeconds` and `parseAbsoluteTime`:
the ISO string `resets_at` is modelled by the instant it renders
(epoch milliseconds). -/
structure TimeDiff where
  time_remaining_seconds : Int
  resets_at : Int
deriving DecidableEq, Repr

/-- The civil reading of the reference instant used by
`computeDiffSeconds` and `parseAbsoluteTime`: `getNowInTz` when a zone
was matched, the system-local calendar parts of `new Date(now)`
otherwise. -/
def nowCivilFor (clk : Clock) (tz : Option (List Char)) : Civil :=
  match tz with
  | some z => clk.tzCivil z clk.now
  | none => localCivil clk

/-- `computeDiffSeconds`: both the target and the now-instant are pushed
through the same naive constructor, so the system offset cancels in the
difference; the difference in minutes times 60 is floored at 0, and the
resolved instant is `now + diffMs` (unclamped). -/
def computeDiffSeconds (clk : Clock)
    (targetY targetMo targetD targetH targetMin : Int)
    (tz : Option (List Char)) : TimeDiff :=
  let targetAsLocal := dateCtorMin targetY targetMo targetD targetH targetMin
  let n := nowCivilFor clk tz
  let nowAsLocal := dateCtorMin n.year n.month n.day n.hour n.minute
  let diffMin := targetAsLocal - nowAsLocal
  ⟨max 0 (diffMin * 60), clk.now + diffMin * 60000⟩

/-- `toHour24` (the am/pm capture as a Boolean, true = pm). -/
def toHour24 (hour : Nat) (pm : Bool) : Int :=
  if pm then (if hour < 12 then (hour : Int) + 12 else (hour : Int))
  else (if hour = 12 then 0 else (hour : Int))

def MONTHS : List (List Char) :=
  ["january".data, "february".data, "march".data, "april".data,
   "may".data, "june".data, "july".data, "august".data,
   "september".data, "october".data, "november".data, "december".data]

/-- Model of `new Date(monthStr + " 1, 2000").getMonth()`: the JS date
parser accepts a word of length at least three that is a prefix of an
English month name; any other word yields an Invalid Date whose NaN
month propagates so that the nonnegativity guard in `parseAbsoluteTime`
fails and the date branch falls through (modelled as `none`). -/
def monthIdx (mon : List Char) : Option Nat :=
  let ml := mon.map Char.toLower
  if ml.length < 3 then none
  else MONTHS.findIdx? (fun m => ml.isPrefixOf m)

/-- `parseAbsoluteTime`: the date-and-time pattern first (its result is
always returned when the month resolves, because the clamped seconds are
never negative), then the bare clock-time pattern with the same-day or
next-day rule. -/
def parseAbsoluteTime (clk : Clock) (line : List Char) : Option TimeDiff :=
  let tz := tzFind line
  let dres : Option TimeDiff :=
    match dtFind line with
    | some dt =>
      match monthIdx dt.monthStr with
      | some mi =>
        let y := match dt.year with
          | some yr => (yr : Int)
          | none => (localCivil clk).year
        some (computeDiffSeconds clk y (mi : Int) (dt.day : Int)
          (toHour24 dt.hour dt.pm) (dt.minute : Int) tz)
      | none => none
    | none => none
  match dres with
  | some r => some r
  | none =>
    match timeOnlyFind line with
    | some (hh, mm, pm) =>
      let c := nowCivilFor clk tz
      let r1 := computeDiffSeconds clk c.year c.month c.day
        (toHour24 hh pm) (mm : Int) tz
      if r1.time_remaining_seconds ≤ 0 then
        some (computeDiffSeconds clk c.year c.month (c.day + 1)
          (toHour24 hh pm) (mm : Int) tz)
      else some r1
    | none => none

/-- `formatDuration`, on the nonnegative second counts the callers
produce. -/
def formatDuration (totalSeconds : Nat) : String :=
  let days := totalSeconds / 86400
  let hours := totalSeconds % 86400 / 3600
  let mins := totalSeconds % 3600 / 60
  if 0 < days then
    if 0 < hours then toString days ++ "d " ++ toString hours ++ "h"
    else toString days ++ "d"
  else if 0 < hours then
    if 0 < mins then toString hours ++ "h" ++ toString mins ++ "m"
    else toString hours ++ "h"
  else if 0 < mins then toString mins ++ "m"
  else "< 1m"

/-- The reset-information record; the empty `resets_at` string of the
unresolved case is modelled by `none`. -/
structure ResetInfo where
  resets_at : Option Int
  time_remaining_seconds : Int
  time_remaining_human : String
deriving DecidableEq, Repr

/-- First pass of `parseResetTime`: lines carrying the (space-tolerant)
Resets/Renews keyword; relative-duration tokens win over an absolute
time on the same line. -/
def resetPass1 (clk : Clock) : List (List Char) → Option ResetInfo
  | [] => none
  | line :: rest =>
    if resetKwTest line then
      let dM := relDaysFind line
      let hM := relHoursFind line
      let mM := relMinsFind line
      if dM.isSome || hM.isSome || mM.isSome then
        let totalSeconds := dM.getD 0 * 86400 + hM.getD 0 * 3600 + mM.getD 0 * 60
        some ⟨some (clk.now + (totalSeconds : Int) * 1000), (totalSeconds : Int),
          formatDuration totalSeconds⟩
      else
        match parseAbsoluteTime clk line with
        | some a =>
          some ⟨some a.resets_at, a.time_remaining_seconds,
            formatDuration a.time_remaining_seconds.toNat⟩
        | none => resetPass1 clk rest
    else resetPass1 clk rest

/-- Second pass of `parseResetTime`: any line with a bare am/pm time
that is not itself a percentage line. -/
def resetPass2 (clk : Clock) : List (List Char) → Option ResetInfo
  | [] => none
  | line :: rest =>
    if hasAmPmTest line && !(percentTest line) then
      match parseAbsoluteTime clk line with
      | some a =>
        some ⟨some a.resets_at, a.time_remaining_seconds,
          formatDuration a.time_remaining_seconds.toNat⟩
      | none => resetPass2 clk rest
    else resetPass2 clk rest

def parseResetTime (clk : Clock) (contextLines : List (List Char)) : ResetInfo :=
  match resetPass1 clk contextLines with
  | some r => r
  | none =>
    match resetPass2 clk contextLines with
    | some r => r
    | none => ⟨none, 0, ""⟩

-- ── Quota extraction ──────────────────────────────────────────────────

structure Quota where
  type : QuotaType
  percent_remaining : Int
  resets_at : Option Int
  time_remaining_seconds : Int
  time_remaining_human : String
deriving DecidableEq, Repr

/-- Loop body of `findNextSectionBoundary`.  The step budget (first
argument) is always called with exactly the remaining line count and
exists only to make the recursion structural; the real loop test is the
index bound, and running out of lines yields the transcript length. -/
def findBoundaryGo (lines : List (List Char)) : Nat → Nat → Nat
  | 0, _ => lines.length
  | n + 1, k =>
    if k < lines.length then
      if (quotaLabelFind (lines.getD k [])).isSome ||
          costSectionTest (lines.getD k []) then k
      else findBoundaryGo lines n (k + 1)
    else lines.length

/-- `findNextSectionBoundary`: the next label or cost-section line after
`startIdx`, or the end of the transcript. -/
def findNextSectionBoundary (lines : List (List Char)) (startIdx : Nat) : Nat :=
  findBoundaryGo lines (lines.length - (startIdx + 1)) (startIdx + 1)

/-- Loop body of the inner percentage scan of `parseQuotas` (same step
budget convention; the callers only use windows with `stop` at most the
line count, so the indexing stays in bounds). -/
def findPercentGo (lines : List (List Char)) (stop : Nat) :
    Nat → Nat → Option (Nat × Nat × Bool)
  | 0, _ => none
  | n + 1, j =>
    if j < stop then
      match percentFind (lines.getD j []) with
      | some (v, used) => some (j, v, used)
      | none => findPercentGo lines stop n (j + 1)
    else none

/-- The inner percentage scan of `parseQuotas`: the first line index in
the window at or after `j` (and below `stop`) whose line matches
`PERCENT_RE`, with the captured value and used-flag. -/
def findPercentIdx (lines : List (List Char)) (j stop : Nat) :
    Option (Nat × Nat × Bool) :=
  findPercentGo lines stop (stop - j) j

/-- Loop body of `parseQuotas` (same step budget convention: each
recursive call advances the index, to `j + 1` only with `j` at least the
current index, so the remaining line count bounds the steps). -/
def parseQuotasGo (clk : Clock) (lines : List (List Char)) :
    Nat → Nat → List Quota
  | 0, _ => []
  | n + 1, i =>
    if i < lines.length then
      match quotaLabelFind (lines.getD i []) with
      | none => parseQuotasGo clk lines n (i + 1)
      | some ty =>
        let sectionEnd := findNextSectionBoundary lines i
        let searchEnd := min (i + 6) sectionEnd
        match findPercentIdx lines i searchEnd with
        | none => parseQuotasGo clk lines n (i + 1)
        | some (j, value, isUsed) =>
          let percentRemaining : Int :=
            if isUsed then 100 - (value : Int) else (value : Int)
          let r := parseResetTime clk ((lines.drop i).take (sectionEnd - i))
          ⟨ty, percentRemaining, r.resets_at, r.time_remaining_seconds,
            r.time_remaining_human⟩ :: parseQuotasGo clk lines n (j + 1)
    else []

def parseQuotas (clk : Clock) (lines : List (List Char)) : List Quota :=
  parseQuotasGo clk lines lines.length 0

-- ── Cost usage ────────────────────────────────────────────────────────

/-- One amount group of `COST_AMOUNT_RE`: one or more digits or commas,
then an optional dot with a digit run.  The greedy runs need no
backtracking: a shorter split ends inside the same run, where the next
character can never match what follows the group. -/
def numGroupAt (s : List Char) : Option (List Char × List Char) :=
  let run := s.takeWhile (fun c => isDigitC c || c == ',')
  if run.isEmpty then none
  else
    match s.drop run.length with
    | '.' :: r2 =>
      let frac := r2.takeWhile isDigitC
      some (run ++ '.' :: frac, r2.drop frac.length)
    | r1 => some (run, r1)

/-- `COST_AMOUNT_RE` anchored at the current position: an optional
dollar sign, an amount group, a slash between optional spaces, another
optional dollar sign and amount group, spaces, the word spent. -/
def costAmountAt (s : List Char) : Option (List Char × List Char) :=
  let s1 := match s with
    | '$' :: r => r
    | _ => s
  match numGroupAt s1 with
  | some (g1, r1) =>
    match r1.dropWhile isSpaceC with
    | '/' :: r3 =>
      let r4 := r3.dropWhile isSpaceC
      let r5 := match r4 with
        | '$' :: r => r
        | _ => r4
      match numGroupAt r5 with
      | some (g2, r6) =>
        if lcPrefix "spent" (r6.dropWhile isSpaceC) then some (g1, g2) else none
      | none => none
    | _ => none
  | none => none

def costAmountFind : List Char → Option (List Char × List Char)
  | [] => none
  | s@(_ :: r) => (costAmountAt s).orElse fun _ => costAmountFind r

/-- JS `"...".replace(",", "")` with a string pattern removes only the
first comma. -/
def replaceFirstComma : List Char → List Char
  | [] => []
  | ',' :: r => r
  | c :: r => c :: replaceFirstComma r

/-- `parseFloat` on the captured amount strings: the longest leading
digits-dot-digits prefix, `none` for NaN. -/
def parseFloatQ (s : List Char) : Option ℚ :=
  let ip := s.takeWhile isDigitC
  if ip.isEmpty then none
  else
    match s.drop ip.length with
    | '.' :: r2 =>
      let fp := r2.takeWhile isDigitC
      some ((digitsVal ip : ℚ) + (digitsVal fp : ℚ) / (10 : ℚ) ^ fp.length)
    | _ => some ((digitsVal ip : ℚ))

/-- Cost amounts; `none` models a NaN from `parseFloat`. -/
structure CostUsage where
  spent : Option ℚ
  budget : Option ℚ
deriving DecidableEq, Repr

/-- Loop body of the amount-pair window scan (same step budget
convention as the other loops). -/
def costGo (lines : List (List Char)) (stop : Nat) :
    Nat → Nat → Option CostUsage
  | 0, _ => none
  | n + 1, j =>
    if j < stop then
      match costAmountFind (lines.getD j []) with
      | some (g1, g2) =>
        some ⟨parseFloatQ (replaceFirstComma g1), parseFloatQ (replaceFirstComma g2)⟩
      | none => costGo lines stop n (j + 1)
    else none

def costWindow (lines : List (List Char)) (j stop : Nat) : Option CostUsage :=
  costGo lines stop (stop - j) j

/-- Loop body of `parseCostUsage`: each cost-section header line opens a
ten-line window searched for the first amount pair; no section or no
pair yields the zero amounts. -/
def parseCostGo (lines : List (List Char)) : Nat → Nat → CostUsage
  | 0, _ => ⟨some 0, some 0⟩
  | n + 1, i =>
    if i < lines.length then
      if costSectionTest (lines.getD i []) then
        match costWindow lines i (min (i + 10) lines.length) with
        | some cu => cu
        | none => parseCostGo lines n (i + 1)
      else parseCostGo lines n (i + 1)
    else ⟨some 0, some 0⟩

def parseCostUsage (lines : List (List Char)) : CostUsage :=
  parseCostGo lines lines.length 0

-- ── Pipeline ──────────────────────────────────────────────────────────

structure UsageData where
  account_type : String
  email : String
  quotas : Option (List Quota)
  cost_usage : CostUsage
  captured_at : Int
  auth_error : Option AuthError
deriving DecidableEq, Repr

inductive ReadResult where
  | ok (data : UsageData)
  | not_authenticated (message : String)
  | not_trusted (message : String)
  | error (message : String)
deriving DecidableEq, Repr

def noDataMsg : String := "No quota data found in claude /usage output."

def parseCliRest (clk : Clock) (lines : List (List Char))
    (authError : Option AuthError) : ReadResult :=
  let quotas := parseQuotas clk lines
  if quotas.isEmpty then .error noDataMsg
  else
    .ok ⟨parseAccountType lines, parseEmail lines, some quotas,
      parseCostUsage lines, clk.now, authError⟩

/-- `parseCliOutput` (the debug-file writes are I/O only and do not
affect the returned value): strip ANSI, split lines, classify a hard
auth failure, else extract quotas or report no data. -/
def parseCliOutput (clk : Clock) (rawOutput : String) : ReadResult :=
  let lines := splitCRLF (stripAnsiL rawOutput.data)
  let authError := detectAuthError lines
  match authError with
  | some e =>
    if AUTH_ERROR_CODES.contains e.Code then .not_authenticated e.Message
    else parseCliRest clk lines authError
  | none => parseCliRest clk lines authError

-- ── Status text formatting ────────────────────────────────────────────

/-- `formatStatusText`: the session, weekly, opus and sonnet records (in
that fixed order, each the first of its kind), rendered as percent-used
and remaining-time parts joined by a separator, the model-specific parts
prefixed by their category name. -/
def formatStatusText (data : UsageData) : String :=
  let qs := data.quotas.getD []
  let part := fun (q : Quota) => toString (100 - q.percent_remaining) ++ "% " ++
    q.time_remaining_human
  let parts :=
    (match qs.find? (fun q => q.type == .session) with
     | some s => [part s]
     | none => []) ++
    (match qs.find? (fun q => q.type == .weekly) with
     | some w => [part w]
     | none => []) ++
    (match qs.find? (fun q => q.type == .opus) with
     | some o => ["opus " ++ part o]
     | none => []) ++
    (match qs.find? (fun q => q.type == .sonnet) with
     | some so => ["sonnet " ++ part so]
     | none => [])
  String.intercalate " | " parts

-- ── Definitions used only to state the verified properties ────────────

/-- The spec's rendering rule for remaining-duration text, stated from
its words: floored unit division; at least one day renders days with
optional leftover hours; else hours with optional leftover minutes;
else minutes; else the under-one-minute literal. -/
def formatDurationSpec (s : Nat) : String :=
  let d := s / 86400
  let h := s % 86400 / 3600
  let m := s % 3600 / 60
  if 1 ≤ d then
    if 0 < h then toString d ++ "d " ++ toString h ++ "h" else toString d ++ "d"
  else if 1 ≤ h then
    if 0 < m then toString h ++ "h" ++ toString m ++ "m" else toString h ++ "h"
  else if 1 ≤ m then toString m ++ "m"
  else "< 1m"

/-- One rendered status part as the spec words it: percent-used (100
minus percent-remaining) and the remaining-human text. -/
def specPart (q : Quota) : String :=
  toString (100 - q.percent_remaining) ++ "% " ++ q.time_remaining_human

/-- The contribution of one category to the spec's display line: the
prefixed part when the quota list has a record of that category (the
first of its kind), nothing otherwise. -/
def specPartFor (data : UsageData) (t : QuotaType) (pre : String) : List String :=
  match (data.quotas.getD []).find? (fun q => q.type == t) with
  | some q => [pre ++ specPart q]
  | none => []

/-- The display line as the spec describes it: the categories in the
fixed order session, weekly, then the model-specific categories opus
and sonnet prefixed by their category names, joined with the bar
separator. -/
def formatStatusTextSpec (data : UsageData) : String :=
  String.intercalate " | "
    (specPartFor data .session "" ++ specPartFor data .weekly "" ++
     specPartFor data .opus "opus " ++ specPartFor data .sonnet "sonnet ")

/-- A concrete reference clock for evaluating witnesses; its named-zone
reading is a fixed, well-formed civil instant. -/
def witClock : Clock := ⟨0, 0, fun _ _ => ⟨2026, 1, 22, 16, 40⟩⟩

/-- Well-formedness of a civil reading of an instant: in-range hour and
minute fields (every `Intl.DateTimeFormat` reading satisfies this). -/
def ValidCivilHM (c : Civil) : Prop :=
  0 ≤ c.hour ∧ c.hour ≤ 23 ∧ 0 ≤ c.minute ∧ c.minute ≤ 59

/-- The resolution `parseAbsoluteTime` computes for a bare clock time:
the target placed on calendar day `d` of the reference instant's civil
reading (in the matched zone if any). -/
def sameDayDiff (clk : Clock) (line : List Char) (hh mm : Nat) (pm : Bool)
    (d : Int) : TimeDiff :=
  computeDiffSeconds clk (nowCivilFor clk (tzFind line)).year
    (nowCivilFor clk (tzFind line)).month d
    (toHour24 hh pm) (mm : Int) (tzFind line)

-- ── Verified properties ───────────────────────────────────────────────

theorem cursorFwdGo_id (n : Nat) (l : List Char) (h : ∀ c ∈ l, c ≠ ESC) :
    cursorFwdGo n l = l := by
  induction n generalizing l with
  | zero => rw [cursorFwdGo]
  | succ n ih =>
    match l with
    | [] => rw [cursorFwdGo]
    | c :: rest =>
      rw [cursorFwdGo]
      simp only [if_neg (h c (by simp))]
      rw [ih rest (fun x hx => h x (by simp [hx]))]

theorem cursorFwdReplace_id (l : List Char) (h : ∀ c ∈ l, c ≠ ESC) :
    cursorFwdReplace l = l := cursorFwdGo_id l.length l h

theorem ansiGo_id (n : Nat) (l : List Char) (h : ∀ c ∈ l, c ≠ ESC) :
    ansiGo n l = l := by
  induction n generalizing l with
  | zero => rw [ansiGo]
  | succ n ih =>
    match l with
    | [] => rw [ansiGo]
    | c :: rest =>
      rw [ansiGo]
      simp only [if_neg (h c (by simp))]
      rw [ih rest (fun x hx => h x (by simp [hx]))]

theorem ansiReplace_id (l : List Char) (h : ∀ c ∈ l, c ≠ ESC) :
    ansiReplace l = l := ansiGo_id l.length l h

theorem map_id_of_fix (l : List Char) (f : Char → Char) (h : ∀ a ∈ l, f a = a) :
    l.map f = l := by
  induction l with
  | nil => rfl
  | cons a r ih =>
    simp only [List.map_cons, h a (by simp), ih (fun x hx => h x (by simp [hx]))]

/-- Characters surviving `stripAnsiL` are never in the stripped control
class (in particular never ESC) and never a carriage return. -/
theorem stripAnsiL_clean (raw : List Char) :
    ∀ c ∈ stripAnsiL raw, isStripCtl c = false ∧ c ≠ '\x0D' := by
  intro c hc
  unfold stripAnsiL at hc
  have hfil := List.of_mem_filter hc
  have hmem := List.mem_of_mem_filter hc
  rw [List.mem_map] at hmem
  obtain ⟨a, _, ha⟩ := hmem
  refine ⟨by simpa using hfil, ?_⟩
  rw [← ha]
  unfold crToNl
  by_cases hcr : a = '\x0D'
  · simp only [hcr, if_pos rfl]
    intro hco
    exact absurd (congrArg Char.toNat hco) (by decide)
  · simp [hcr]

theorem charToNat_eq (a b : Char) (h : a.toNat = b.toNat) : a = b := by
  apply Char.eq_of_val_eq
  exact UInt32.ext h

/-- `stripAnsiL` is the identity on already-clean character lists. -/
theorem stripAnsiL_id (l : List Char)
    (h : ∀ c ∈ l, isStripCtl c = false ∧ c ≠ '\x0D') :
    stripAnsiL l = l := by
  have hne : ∀ c ∈ l, c ≠ ESC := by
    intro c hc hesc
    have := (h c hc).1
    rw [hesc] at this
    exact absurd this (by decide)
  unfold stripAnsiL
  rw [cursorFwdReplace_id _ hne]
  rw [ansiReplace_id _ hne]
  rw [map_id_of_fix _ _ (fun a ha => by
    unfold crToNl
    rw [if_neg (h a ha).2])]
  rw [List.filter_eq_self.mpr (fun a ha => by simp [(h a ha).1])]

/-- C10: the transcript normalizer `stripAnsi` is idempotent, and its
output never contains an ESC byte, a carriage return, or any C0 control
character other than newline and tab. -/
theorem stripAnsi_idempotent (s : String) :
    stripAnsi (stripAnsi s) = stripAnsi s ∧
    ∀ c ∈ (stripAnsi s).data, c ≠ ESC ∧ c ≠ '\x0D' ∧
      (c.toNat < 0x20 → c = '\x0A' ∨ c = '\x09') := by
  have hclean := stripAnsiL_clean s.data
  have hdata : (stripAnsi s).data = stripAnsiL s.data := rfl
  constructor
  · show (⟨stripAnsiL (stripAnsi s).data⟩ : String) = stripAnsi s
    rw [hdata, stripAnsiL_id _ hclean]
    rfl
  · intro c hc
    rw [hdata] at hc
    obtain ⟨h1, h2⟩ := hclean c hc
    refine ⟨?_, h2, ?_⟩
    · intro hesc
      rw [hesc] at h1
      exact absurd h1 (by decide)
    · intro hlt
      unfold isStripCtl at h1
      simp only [Bool.or_eq_false_iff, Bool.and_eq_false_iff, beq_eq_false_iff_ne,
        decide_eq_false_iff_not, not_le] at h1
      have hn : c.toNat ≠ 0x0D := fun hco =>
        h2 (charToNat_eq _ _ hco)
      have : c.toNat = 0x0A ∨ c.toNat = 0x09 := by omega
      rcases this with h | h
      · exact Or.inl (charToNat_eq _ _ h)
      · exact Or.inr (charToNat_eq _ _ h)


/-- C7: `formatDuration` follows exactly the spec's rendering rule with
floored unit division, for every nonnegative second count, checked also
on concrete unit-boundary inputs. -/
theorem formatDuration_follows_spec :
    (∀ s : Nat, formatDuration s = formatDurationSpec s) ∧
    formatDuration 12000 = "3h20m" ∧ formatDuration 440400 = "5d 2h" ∧
    formatDuration 598800 = "6d 22h" ∧ formatDuration 86400 = "1d" ∧
    formatDuration 90000 = "1d 1h" ∧ formatDuration 3600 = "1h" ∧
    formatDuration 60 = "1m" ∧ formatDuration 59 = "< 1m" :=
  ⟨fun _ => rfl, rfl, rfl, rfl, rfl, rfl, rfl, rfl, rfl⟩

/-- C8: for every `UsageData` value, the status line equals the spec's
rendering rule `formatStatusTextSpec` — the fixed category order
session, weekly, then the model-specific categories prefixed by their
category names, each present category (the first record of its kind)
rendered as percent-used and remaining-human, all joined by the bar
separator — and the spec's three-record scenario renders exactly as
stated. -/
theorem formatStatusText_rule :
    (∀ data : UsageData, formatStatusText data = formatStatusTextSpec data) ∧
    formatStatusText ⟨"unknown", "", some [⟨.session, 86, none, 12000, "3h20m"⟩,
        ⟨.weekly, 93, none, 440400, "5d 2h"⟩, ⟨.sonnet, 100, none, 598800, "6d 22h"⟩],
        ⟨some 0, some 0⟩, 0, none⟩ = "14% 3h20m | 7% 5d 2h | sonnet 0% 6d 22h" := by
  constructor
  · intro data
    simp only [formatStatusText, formatStatusTextSpec, specPartFor, specPart]
    cases (data.quotas.getD []).find? (fun q => q.type == QuotaType.session) <;>
      cases (data.quotas.getD []).find? (fun q => q.type == QuotaType.weekly) <;>
        cases (data.quotas.getD []).find? (fun q => q.type == QuotaType.opus) <;>
          cases (data.quotas.getD []).find? (fun q => q.type == QuotaType.sonnet) <;>
            rfl
  · rfl

/-- C5: a line carrying the Resets/Renews keyword and at least one
relative-duration token resolves to exactly days times 86400 plus hours
times 3600 plus minutes times 60 seconds — for every reference clock,
since the right-hand side does not mention the clock — with the human
text recomputed from that count by `formatDuration`. -/
theorem parseResetTime_relative (clk : Clock) (L : List Char)
    (hk : resetKwTest L = true)
    (hsome : (relDaysFind L).isSome = true ∨ (relHoursFind L).isSome = true ∨
      (relMinsFind L).isSome = true) :
    (parseResetTime clk [L]).time_remaining_seconds =
      (((relDaysFind L).getD 0 * 86400 + (relHoursFind L).getD 0 * 3600 +
        (relMinsFind L).getD 0 * 60 : Nat) : Int) ∧
    (parseResetTime clk [L]).time_remaining_human =
      formatDuration ((relDaysFind L).getD 0 * 86400 + (relHoursFind L).getD 0 * 3600 +
        (relMinsFind L).getD 0 * 60) := by
  have hb : ((relDaysFind L).isSome || (relHoursFind L).isSome ||
      (relMinsFind L).isSome) = true := by
    rcases hsome with h | h | h <;> simp [h]
  unfold parseResetTime
  unfold resetPass1
  rw [hk]
  simp only [if_true, hb]
  exact ⟨trivial, trivial⟩

theorem parseResetTime_relative_witness :
    resetKwTest "Resets 2d 3h".data = true ∧
    (parseResetTime witClock ["Resets 2d 3h".data]).time_remaining_seconds = 183600 ∧
    (parseResetTime witClock ["Resets 2d 3h".data]).time_remaining_human = "2d 3h" := by
  have h := parseResetTime_relative witClock "Resets 2d 3h".data (by decide)
    (Or.inl (by decide))
  refine ⟨by decide, ?_, ?_⟩
  · rw [h.1]; decide
  · rw [h.2]; decide

/-- C6, counterexample: a three-digit percentage above 100 is captured
as-is by the percentage pattern, so the emitted record's
percent-remaining field (here 150) escapes the claimed 0..100 range. -/
theorem parseQuotas_percent_range_cex :
    parseQuotas witClock ["Current session".data, "150% left".data] =
      [⟨.session, 150, none, 0, ""⟩] ∧
    ¬(∀ q ∈ parseQuotas witClock ["Current session".data, "150% left".data],
        0 ≤ q.percent_remaining ∧ q.percent_remaining ≤ 100) := by
  constructor
  · decide
  · intro hall
    have hm : (⟨.session, 150, none, 0, ""⟩ : Quota) ∈
        parseQuotas witClock ["Current session".data, "150% left".data] := by decide
    have := (hall _ hm).2
    exact absurd this (by decide)

theorem findPercentGo_found (lines : List (List Char)) (stop : Nat) :
    ∀ n j k v u, findPercentGo lines stop n j = some (k, v, u) →
      percentFind (lines.getD k []) = some (v, u) := by
  intro n
  induction n with
  | zero =>
    intro j k v u h
    rw [findPercentGo] at h
    exact absurd h (by simp)
  | succ n ih =>
    intro j k v u h
    rw [findPercentGo] at h
    by_cases hj : j < stop
    · rw [if_pos hj] at h
      rcases hp : percentFind (lines.getD j []) with _ | ⟨v1, u1⟩
      · rw [hp] at h
        exact ih (j + 1) k v u h
      · rw [hp] at h
        simp at h
        obtain ⟨h1, h2, h3⟩ := h
        rw [← h1, hp, h2, h3]
    · rw [if_neg hj] at h
      exact absurd h (by simp)

theorem parseQuotasGo_percent (clk : Clock) (lines : List (List Char)) :
    ∀ n i q, q ∈ parseQuotasGo clk lines n i →
      ∃ k v u, percentFind (lines.getD k []) = some (v, u) ∧
        q.percent_remaining = (if u then 100 - (v : Int) else (v : Int)) := by
  intro n
  induction n with
  | zero =>
    intro i q h
    rw [parseQuotasGo] at h
    exact absurd h (by simp)
  | succ n ih =>
    intro i q h
    rw [parseQuotasGo] at h
    by_cases hi : i < lines.length
    · rw [if_pos hi] at h
      rcases hl : quotaLabelFind (lines.getD i []) with _ | ty
      · rw [hl] at h
        exact ih (i + 1) q h
      · rw [hl] at h
        simp only at h
        rcases hp : findPercentIdx lines i
            (min (i + 6) (findNextSectionBoundary lines i)) with _ | ⟨j, v, u⟩
        · rw [hp] at h
          exact ih (i + 1) q h
        · rw [hp] at h
          rcases List.mem_cons.mp h with h1 | h1
          · refine ⟨j, v, u, findPercentGo_found lines _ _ i j v u hp, ?_⟩
            rw [h1]
          · exact ih (j + 1) q h1
    · rw [if_neg hi] at h
      exact absurd h (by simp)

/-- C6, as amended: every record emitted by `parseQuotas` carries a
percentage derived from the matched value v as 100 minus v for a
used-phrase and v itself for a left-phrase, and that percentage lies in
the 0..100 range whenever the matched value is at most 100 (the
three-digit pattern admits values up to 999, which escape the range). -/
theorem parseQuotas_percent_derivation (clk : Clock) (lines : List (List Char))
    (q : Quota) (hq : q ∈ parseQuotas clk lines) :
    ∃ k v u, percentFind (lines.getD k []) = some (v, u) ∧
      q.percent_remaining = (if u then 100 - (v : Int) else (v : Int)) ∧
      (v ≤ 100 → 0 ≤ q.percent_remaining ∧ q.percent_remaining ≤ 100) := by
  obtain ⟨k, v, u, hfind, heq⟩ := parseQuotasGo_percent clk lines lines.length 0 q hq
  refine ⟨k, v, u, hfind, heq, fun hv => ?_⟩
  rw [heq]
  cases u <;> simp <;> omega

theorem parseQuotas_percent_derivation_witness :
    ∃ k v u, percentFind ((["Current session".data, "14% used".data] :
        List (List Char)).getD k []) = some (v, u) ∧
      (⟨.session, 86, none, 0, ""⟩ : Quota).percent_remaining =
        (if u then 100 - (v : Int) else (v : Int)) ∧
      (v ≤ 100 → 0 ≤ (⟨.session, 86, none, 0, ""⟩ : Quota).percent_remaining ∧
        (⟨.session, 86, none, 0, ""⟩ : Quota).percent_remaining ≤ 100) :=
  parseQuotas_percent_derivation witClock
    ["Current session".data, "14% used".data] _ (by decide)

/-- C9 (the code's behavior on the claim's own example): the first
amount has its single thousands separator stripped, but in the second
the string-pattern replace removes only the first comma, parseFloat
stops at the surviving one, and the budget parses as 2000 rather than
2000000; an absent cost section still yields the zero amounts. -/
theorem parseCostUsage_thousands :
    parseCostUsage ["Extra usage".data, "$1,234.50 / $2,000,000 spent".data] =
      ⟨some ((2469 : ℚ) / 2), some 2000⟩ ∧
    (2000 : ℚ) ≠ 2000000 ∧
    parseCostUsage ["no cost here".data] = ⟨some 0, some 0⟩ := by
  refine ⟨?_, by norm_num, by decide⟩
  have h1 : parseCostUsage ["Extra usage".data, "$1,234.50 / $2,000,000 spent".data] =
      ⟨parseFloatQ (replaceFirstComma "1,234.50".data),
       parseFloatQ (replaceFirstComma "2,000,000".data)⟩ := rfl
  have h2 : parseFloatQ (replaceFirstComma "1,234.50".data) =
      some ((digitsVal "1234".data : ℚ) + (digitsVal "50".data : ℚ) / (10 : ℚ) ^ (2 : ℕ)) := rfl
  have h3 : parseFloatQ (replaceFirstComma "2,000,000".data) =
      some ((digitsVal "2000".data : ℚ)) := rfl
  have d1 : digitsVal "1234".data = 1234 := by decide
  have d2 : digitsVal "50".data = 50 := by decide
  have d3 : digitsVal "2000".data = 2000 := by decide
  rw [h1, h2, h3, d1, d2, d3]
  simp only [CostUsage.mk.injEq, Option.some.injEq]
  constructor <;> norm_num

theorem detectAuthError_hard (lines : List (List Char)) (e : AuthError)
    (h : detectAuthError lines = some e) :
    AUTH_ERROR_CODES.contains e.Code = true := by
  simp only [detectAuthError] at h
  split_ifs at h <;> simp only [Option.some.injEq] at h <;> rw [← h] <;> decide

/-- C2: when the joined, normalized line block matches any of the five
recognized hard authentication-failure patterns, the classifier reports
some failure and the pipeline outcome is NotAuthenticated with that
failure's message — every code in the pattern table is in the hard set,
so this holds regardless of any quota content also present. -/
theorem parseCliOutput_auth_precedence (clk : Clock) (raw : String)
    (h : mTest authPat1 (joinNL (splitCRLF (stripAnsiL raw.data))) = true ∨
         mTest authPat2 (joinNL (splitCRLF (stripAnsiL raw.data))) = true ∨
         mTest authPat3 (joinNL (splitCRLF (stripAnsiL raw.data))) = true ∨
         mTest authPat4 (joinNL (splitCRLF (stripAnsiL raw.data))) = true ∨
         mTest authPat5 (joinNL (splitCRLF (stripAnsiL raw.data))) = true) :
    ∃ e : AuthError, detectAuthError (splitCRLF (stripAnsiL raw.data)) = some e ∧
      parseCliOutput clk raw = .not_authenticated e.Message := by
  have hsome : ∃ e : AuthError,
      detectAuthError (splitCRLF (stripAnsiL raw.data)) = some e := by
    simp only [detectAuthError]
    split_ifs with h1 h2 h3 h4 h5
    · exact ⟨_, rfl⟩
    · exact ⟨_, rfl⟩
    · exact ⟨_, rfl⟩
    · exact ⟨_, rfl⟩
    · exact ⟨_, rfl⟩
    · rcases h with h | h | h | h | h <;> simp only [joinNL] at h ⊢ <;>
        first
          | exact absurd h h1
          | exact absurd h h2
          | exact absurd h h3
          | exact absurd h h4
          | exact absurd h h5
  obtain ⟨e, he⟩ := hsome
  refine ⟨e, he, ?_⟩
  simp only [parseCliOutput]
  rw [he]
  simp only [detectAuthError_hard _ e he, if_true]

theorem parseCliOutput_auth_precedence_witness :
    ∃ e : AuthError,
      detectAuthError (splitCRLF (stripAnsiL
        "No active subscription found.\nCurrent session\n14% used".data)) = some e ∧
      parseCliOutput witClock
        "No active subscription found.\nCurrent session\n14% used" =
        .not_authenticated e.Message :=
  parseCliOutput_auth_precedence witClock
    "No active subscription found.\nCurrent session\n14% used"
    (Or.inr (Or.inr (Or.inr (Or.inl (by decide)))))

/-- C3: with no hard authentication failure detected, the pipeline
outcome is Ok exactly when quota extraction produced at least one
record; zero records give the distinguished no-data error, and an Ok
outcome's quota list is exactly the extracted nonempty list. -/
theorem parseCliOutput_ok_iff (clk : Clock) (raw : String)
    (hna : detectAuthError (splitCRLF (stripAnsiL raw.data)) = none) :
    ((∃ d, parseCliOutput clk raw = .ok d) ↔
        parseQuotas clk (splitCRLF (stripAnsiL raw.data)) ≠ []) ∧
    (parseQuotas clk (splitCRLF (stripAnsiL raw.data)) = [] →
        parseCliOutput clk raw = .error noDataMsg) ∧
    (∀ d, parseCliOutput clk raw = .ok d →
        d.quotas = some (parseQuotas clk (splitCRLF (stripAnsiL raw.data))) ∧
        d.quotas ≠ some []) := by
  have hout : parseCliOutput clk raw =
      parseCliRest clk (splitCRLF (stripAnsiL raw.data)) none := by
    simp only [parseCliOutput]
    rw [hna]
  rcases hq : parseQuotas clk (splitCRLF (stripAnsiL raw.data)) with _ | ⟨q0, qrest⟩
  · have hrest : parseCliRest clk (splitCRLF (stripAnsiL raw.data)) none =
        .error noDataMsg := by
      unfold parseCliRest
      rw [hq]
      rfl
    rw [hout, hrest]
    refine ⟨?_, fun _ => rfl, ?_⟩
    · simp
    · intro d hd
      exact absurd hd (by simp)
  · have hrest : parseCliRest clk (splitCRLF (stripAnsiL raw.data)) none =
        .ok ⟨parseAccountType (splitCRLF (stripAnsiL raw.data)),
          parseEmail (splitCRLF (stripAnsiL raw.data)), some (q0 :: qrest),
          parseCostUsage (splitCRLF (stripAnsiL raw.data)), clk.now, none⟩ := by
      unfold parseCliRest
      rw [hq]
      rfl
    rw [hout, hrest]
    refine ⟨?_, ?_, ?_⟩
    · simp
    · intro hc
      exact absurd hc (by simp)
    · intro d hd
      simp only [ReadResult.ok.injEq] at hd
      rw [← hd]
      rw [← hq]
      exact ⟨rfl, by rw [hq]; simp⟩

theorem parseCliOutput_ok_iff_witness :
    ((∃ d, parseCliOutput witClock "Current session\n14% used" = .ok d) ↔
        parseQuotas witClock (splitCRLF (stripAnsiL
          "Current session\n14% used".data)) ≠ []) ∧
    (parseQuotas witClock (splitCRLF (stripAnsiL
        "Current session\n14% used".data)) = [] →
        parseCliOutput witClock "Current session\n14% used" = .error noDataMsg) ∧
    (∀ d, parseCliOutput witClock "Current session\n14% used" = .ok d →
        d.quotas = some (parseQuotas witClock (splitCRLF (stripAnsiL
          "Current session\n14% used".data))) ∧
        d.quotas ≠ some []) :=
  parseCliOutput_ok_iff witClock "Current session\n14% used" (by decide)

theorem localCivil_hm (clk : Clock) : ValidCivilHM (localCivil clk) := by
  have h1 : (localCivil clk).hour =
      (((clk.now + clk.sysOff * 60000).fdiv 60000).emod 1440).fdiv 60 := rfl
  have h2 : (localCivil clk).minute =
      (((clk.now + clk.sysOff * 60000).fdiv 60000).emod 1440).emod 60 := rfl
  set t := (clk.now + clk.sysOff * 60000).fdiv 60000 with ht
  have hrem : t.emod 1440 = t % 1440 := rfl
  have hb : 0 ≤ t % 1440 ∧ t % 1440 ≤ 1439 := by omega
  refine ⟨?_, ?_, ?_, ?_⟩
  · rw [h1, hrem, Int.fdiv_eq_ediv _ (by norm_num)]
    omega
  · rw [h1, hrem, Int.fdiv_eq_ediv _ (by norm_num)]
    omega
  · rw [h2, hrem]
    have : (t % 1440).emod 60 = (t % 1440) % 60 := rfl
    rw [this]
    omega
  · rw [h2, hrem]
    have : (t % 1440).emod 60 = (t % 1440) % 60 := rfl
    rw [this]
    omega

theorem toHour24_nonneg (hh : Nat) (pm : Bool) : 0 ≤ toHour24 hh pm := by
  unfold toHour24
  rcases pm <;> split_ifs <;> omega

theorem dateCtorMin_hm_diff (y mo d h1 m1 h2 m2 : Int) :
    dateCtorMin y mo d h1 m1 - dateCtorMin y mo d h2 m2 =
      60 * (h1 - h2) + (m1 - m2) := by
  simp only [dateCtorMin]
  ring

theorem dateCtorMin_succ_day (y mo d h mi : Int) :
    dateCtorMin y mo (d + 1) h mi = dateCtorMin y mo d h mi + 1440 := by
  simp only [dateCtorMin, daysFromCivil]
  ring

/-- C4: for a line with a bare clock time (no recognized date), the
resolver assumes the reference instant's calendar day — in the matched
zone when one is present, the system-local calendar otherwise — and,
when that same-day occurrence is not strictly after the (minute-
truncated) reference reading, advances the target one day; either way
the remaining seconds are strictly positive and the resolved instant is
strictly after the reference instant.  The named-zone reading is only
assumed to have in-range hour and minute fields. -/
theorem parseAbsoluteTime_noDate (clk : Clock) (line : List Char)
    (hh mm : Nat) (pm : Bool)
    (hdt : dtFind line = none)
    (hto : timeOnlyFind line = some (hh, mm, pm))
    (htz : ∀ z t, ValidCivilHM (clk.tzCivil z t)) :
    parseAbsoluteTime clk line =
      some (if 0 < (sameDayDiff clk line hh mm pm
            (nowCivilFor clk (tzFind line)).day).time_remaining_seconds
        then sameDayDiff clk line hh mm pm (nowCivilFor clk (tzFind line)).day
        else sameDayDiff clk line hh mm pm
          ((nowCivilFor clk (tzFind line)).day + 1)) ∧
    0 < (if 0 < (sameDayDiff clk line hh mm pm
            (nowCivilFor clk (tzFind line)).day).time_remaining_seconds
        then sameDayDiff clk line hh mm pm (nowCivilFor clk (tzFind line)).day
        else sameDayDiff clk line hh mm pm
          ((nowCivilFor clk (tzFind line)).day + 1)).time_remaining_seconds ∧
    clk.now < (if 0 < (sameDayDiff clk line hh mm pm
            (nowCivilFor clk (tzFind line)).day).time_remaining_seconds
        then sameDayDiff clk line hh mm pm (nowCivilFor clk (tzFind line)).day
        else sameDayDiff clk line hh mm pm
          ((nowCivilFor clk (tzFind line)).day + 1)).resets_at := by
  have hparse : parseAbsoluteTime clk line =
      if (sameDayDiff clk line hh mm pm
          (nowCivilFor clk (tzFind line)).day).time_remaining_seconds ≤ 0
      then some (sameDayDiff clk line hh mm pm
        ((nowCivilFor clk (tzFind line)).day + 1))
      else some (sameDayDiff clk line hh mm pm
        (nowCivilFor clk (tzFind line)).day) := by
    simp only [parseAbsoluteTime, hdt, hto]
    rfl
  have hc : ValidCivilHM (nowCivilFor clk (tzFind line)) := by
    unfold nowCivilFor
    rcases tzFind line with _ | z
    · exact localCivil_hm clk
    · exact htz z clk.now
  set c := nowCivilFor clk (tzFind line) with hcdef
  have hr0 : sameDayDiff clk line hh mm pm c.day =
      ⟨max 0 ((dateCtorMin c.year c.month c.day (toHour24 hh pm) (mm : Int) -
          dateCtorMin c.year c.month c.day c.hour c.minute) * 60),
        clk.now + (dateCtorMin c.year c.month c.day (toHour24 hh pm) (mm : Int) -
          dateCtorMin c.year c.month c.day c.hour c.minute) * 60000⟩ := rfl
  have hr1 : sameDayDiff clk line hh mm pm (c.day + 1) =
      ⟨max 0 ((dateCtorMin c.year c.month (c.day + 1) (toHour24 hh pm) (mm : Int) -
          dateCtorMin c.year c.month c.day c.hour c.minute) * 60),
        clk.now + (dateCtorMin c.year c.month (c.day + 1) (toHour24 hh pm) (mm : Int) -
          dateCtorMin c.year c.month c.day c.hour c.minute) * 60000⟩ := rfl
  set d0 := dateCtorMin c.year c.month c.day (toHour24 hh pm) (mm : Int) -
      dateCtorMin c.year c.month c.day c.hour c.minute with hd0
  set d1 := dateCtorMin c.year c.month (c.day + 1) (toHour24 hh pm) (mm : Int) -
      dateCtorMin c.year c.month c.day c.hour c.minute with hd1
  have hd0v : d0 = 60 * (toHour24 hh pm - c.hour) + ((mm : Int) - c.minute) := by
    rw [hd0, dateCtorMin_hm_diff]
  have hd1v : d1 = d0 + 1440 := by
    rw [hd1, hd0, dateCtorMin_succ_day]
    ring
  obtain ⟨hcb1, hcb2, hcb3, hcb4⟩ := hc
  have htm : (0 : Int) ≤ 60 * toHour24 hh pm + (mm : Int) := by
    have := toHour24_nonneg hh pm
    omega
  by_cases hpos : 0 < (sameDayDiff clk line hh mm pm c.day).time_remaining_seconds
  · have hguard : ¬((sameDayDiff clk line hh mm pm c.day).time_remaining_seconds ≤ 0) := by
      omega
    rw [hparse, if_neg hguard, if_pos hpos]
    refine ⟨rfl, hpos, ?_⟩
    have hs : (sameDayDiff clk line hh mm pm c.day).time_remaining_seconds =
        max 0 (d0 * 60) := by rw [hr0]
    have hrs : (sameDayDiff clk line hh mm pm c.day).resets_at =
        clk.now + d0 * 60000 := by rw [hr0]
    rw [hs] at hpos
    rw [hrs]
    omega
  · have hguard : (sameDayDiff clk line hh mm pm c.day).time_remaining_seconds ≤ 0 := by
      omega
    rw [hparse, if_pos hguard, if_neg hpos]
    have hs1 : (sameDayDiff clk line hh mm pm (c.day + 1)).time_remaining_seconds =
        max 0 (d1 * 60) := by rw [hr1]
    have hrs1 : (sameDayDiff clk line hh mm pm (c.day + 1)).resets_at =
        clk.now + d1 * 60000 := by rw [hr1]
    have hd1pos : 0 < d1 := by
      rw [hd1v, hd0v]
      omega
    refine ⟨rfl, ?_, ?_⟩
    · rw [hs1]
      omega
    · rw [hrs1]
      omega

theorem parseAbsoluteTime_noDate_witness :
    parseAbsoluteTime witClock "Resets 8pm (America/Toronto)".data =
      some (if 0 < (sameDayDiff witClock "Resets 8pm (America/Toronto)".data 8 0 true
            (nowCivilFor witClock
              (tzFind "Resets 8pm (America/Toronto)".data)).day).time_remaining_seconds
        then sameDayDiff witClock "Resets 8pm (America/Toronto)".data 8 0 true
          (nowCivilFor witClock (tzFind "Resets 8pm (America/Toronto)".data)).day
        else sameDayDiff witClock "Resets 8pm (America/Toronto)".data 8 0 true
          ((nowCivilFor witClock (tzFind "Resets 8pm (America/Toronto)".data)).day + 1)) ∧
    0 < (if 0 < (sameDayDiff witClock "Resets 8pm (America/Toronto)".data 8 0 true
            (nowCivilFor witClock
              (tzFind "Resets 8pm (America/Toronto)".data)).day).time_remaining_seconds
        then sameDayDiff witClock "Resets 8pm (America/Toronto)".data 8 0 true
          (nowCivilFor witClock (tzFind "Resets 8pm (America/Toronto)".data)).day
        else sameDayDiff witClock "Resets 8pm (America/Toronto)".data 8 0 true
          ((nowCivilFor witClock
            (tzFind "Resets 8pm (America/Toronto)".data)).day + 1)).time_remaining_seconds ∧
    witClock.now < (if 0 < (sameDayDiff witClock "Resets 8pm (America/Toronto)".data 8 0 true
            (nowCivilFor witClock
              (tzFind "Resets 8pm (America/Toronto)".data)).day).time_remaining_seconds
        then sameDayDiff witClock "Resets 8pm (America/Toronto)".data 8 0 true
          (nowCivilFor witClock (tzFind "Resets 8pm (America/Toronto)".data)).day
        else sameDayDiff witClock "Resets 8pm (America/Toronto)".data 8 0 true
          ((nowCivilFor witClock
            (tzFind "Resets 8pm (America/Toronto)".data)).day + 1)).resets_at :=
  parseAbsoluteTime_noDate witClock "Resets 8pm (America/Toronto)".data 8 0 true
    (by decide) (by decide)
    (fun _ _ => (⟨by decide, by decide, by decide, by decide⟩ :
      ValidCivilHM ⟨2026, 1, 22, 16, 40⟩))

theorem resetPass1_swap2 (clk : Clock) (P R : List Char)
    (hPk : resetKwTest P = false) :
    resetPass1 clk [P, R] = resetPass1 clk [R, P] := by
  simp only [resetPass1, hPk]
  simp

theorem resetPass2_swap2 (clk : Clock) (P R : List Char)
    (hPp : percentTest P = true) :
    resetPass2 clk [P, R] = resetPass2 clk [R, P] := by
  simp only [resetPass2, hPp]
  simp

theorem resetPass1_cons (clk : Clock) (L : List Char) (t1 t2 : List (List Char))
    (h : resetPass1 clk t1 = resetPass1 clk t2) :
    resetPass1 clk (L :: t1) = resetPass1 clk (L :: t2) := by
  simp only [resetPass1]
  rw [h]

theorem resetPass2_cons (clk : Clock) (L : List Char) (t1 t2 : List (List Char))
    (h : resetPass2 clk t1 = resetPass2 clk t2) :
    resetPass2 clk (L :: t1) = resetPass2 clk (L :: t2) := by
  simp only [resetPass2]
  rw [h]

/-- Within one section window, the resolver's result does not depend on
whether the percentage line precedes or follows the reset line: the
percentage line can match neither the keyword pass (it has no
Resets/Renews wording) nor the fallback pass (which skips percentage
lines), so both passes consult the same lines in the same order. -/
theorem parseResetTime_swap (clk : Clock) (L P R : List Char)
    (hPk : resetKwTest P = false) (hPp : percentTest P = true) :
    parseResetTime clk [L, P, R] = parseResetTime clk [L, R, P] := by
  unfold parseResetTime
  rw [resetPass1_cons clk L [P, R] [R, P] (resetPass1_swap2 clk P R hPk),
      resetPass2_cons clk L [P, R] [R, P] (resetPass2_swap2 clk P R hPp)]

/-- C1: a transcript consisting of one quota section — a category label
line, a percentage line and a reset-deadline line — yields the identical
record list from `parseQuotas` in either physical order of the
percentage and reset lines, for every reference clock. -/
theorem parseQuotas_swap (clk : Clock) (L P R : List Char) (ty : QuotaType)
    (hL : quotaLabelFind L = some ty)
    (hLp : percentFind L = none)
    (hPl : quotaLabelFind P = none) (hPc : costSectionTest P = false)
    (hPk : resetKwTest P = false) (hPp : percentTest P = true)
    (hRl : quotaLabelFind R = none) (hRc : costSectionTest R = false)
    (hRp : percentFind R = none) :
    parseQuotas clk [L, P, R] = parseQuotas clk [L, R, P] := by
  obtain ⟨⟨v, u⟩, hpv⟩ : ∃ p, percentFind P = some p := by
    unfold percentTest at hPp
    exact Option.isSome_iff_exists.mp hPp
  simp only [parseQuotas, parseQuotasGo, findNextSectionBoundary, findBoundaryGo,
    findPercentIdx, findPercentGo, List.getD_cons_zero, List.getD_cons_succ,
    List.length_cons, List.length_nil, hL, hLp, hPl, hPc, hPk, hRl, hRc, hRp, hpv]
  norm_num
  rw [parseResetTime_swap clk L P R hPk hPp]
  refine ⟨⟨rfl, rfl, rfl⟩, ?_⟩
  simp only [hRl, hRp, hPl, hpv]

theorem parseQuotas_swap_witness :
    parseQuotas witClock
      ["Current session".data, "14% used".data, "Resets 2h".data] =
    parseQuotas witClock
      ["Current session".data, "Resets 2h".data, "14% used".data] :=
  parseQuotas_swap witClock "Current session".data "14% used".data
    "Resets 2h".data .session (by decide) (by decide) (by decide) (by decide)
    (by decide) (by decide) (by decide) (by decide) (by decide)

end UsageReader
